import Mathlib

/-!
Verification development for the HTML banner generator CLI
(`bin/cli.js`, plus a legacy single-file CLI variant).

The definitions below are a shallow embedding of the reconciliation
engine and its supporting components: the mode policy
(`shouldProcessBanner` / `shouldRenderBanner`), the persisted
generation state (`.gen-state.json`), the stable fingerprint
(`stableStringify`), the filter engine (`matchesFilters`), the size
guard (`parseKb` / `checkZipSize`), template instantiation
(`ensureTemplateOnCreate`) and the packager exclusions (`zipFolder`).
Filesystem effects are modelled by explicit state passing: a `Store`
maps a banner folder (its path segments below the output root) to the
observable on-disk facts the engine reads (entry marker presence, the
raw generation-state file, the scanned asset file names).
-/

namespace BannerGen

/-- The three reconciliation modes selected by `ensureValidMode` in
`bin/cli.js` (`--create-only`, `--update`, default incremental). -/
inductive Mode where
  | createOnly
  | update
  | incremental
deriving Repr, DecidableEq

/-- The fields of a persisted `.gen-state.json` record that the
reconciliation decision reads (`writeGenState` also stores
`templateType` and `updatedAt`, but `shouldRenderBanner` never reads
them, so they are omitted).  Both fields are `Option` because a
parseable JSON file of the wrong shape may lack them, in which case the
JS code sees `undefined`. -/
structure PrevState where
  assetsFiles : Option (List String)
  fmtSig : Option String
deriving Repr, DecidableEq

/-- The raw on-disk situation of a `.gen-state.json` file: absent,
present but not parseable as JSON, or parsed to a record. -/
inductive GenFile where
  | missing
  | corrupt
  | parsed (p : PrevState)
deriving Repr, DecidableEq

/-- `readGenState` in `bin/cli.js`: a missing file yields `null`, an
unparseable file is caught and yields `null`, otherwise the parsed
record is returned. -/
def readGenState : GenFile → Option PrevState
  | .missing => none
  | .corrupt => none
  | .parsed p => some p

/-- `sameStringArray` in `bin/cli.js`: `false` unless both arguments
are arrays (here: `some`), then length plus element-wise comparison,
i.e. list equality. -/
def sameStringArray : Option (List String) → Option (List String) → Bool
  | some a, some b => a == b
  | _, _ => false

/-- `shouldProcessBanner` in `bin/cli.js`: `create-only` skips existing
artifacts, `update` skips missing ones. -/
def shouldProcessBanner (mode : Mode) (ex : Bool) : Bool :=
  if mode = .createOnly && ex then false
  else if mode = .update && !ex then false
  else true

/-- `shouldRenderBanner` in `bin/cli.js`.  `prevState` is the result of
`readGenState`, `assetsFiles` the current asset scan, `fmtSig` the
current fingerprint. -/
def shouldRenderBanner (mode : Mode) (ex : Bool) (prevState : Option PrevState)
    (assetsFiles : List String) (fmtSig : String) : Bool :=
  let assetsChanged :=
    match prevState with
    | none => true
    | some p => !(sameStringArray p.assetsFiles (some assetsFiles))
  let fmtChanged :=
    match prevState with
    | none => true
    | some p => decide (p.fmtSig ≠ some fmtSig)
  match mode with
  | .update => true
  | .createOnly => !ex
  | .incremental => !ex || assetsChanged || fmtChanged

/-- The composition of the two per-format decisions exactly as the loop
in `generateFromFormatsJson` applies them: a format is rendered in a
pass iff `shouldProcessBanner` lets it through and `shouldRenderBanner`
then says to render. -/
def rendersThisPass (mode : Mode) (ex : Bool) (prevState : Option PrevState)
    (assetsFiles : List String) (fmtSig : String) : Bool :=
  shouldProcessBanner mode ex && shouldRenderBanner mode ex prevState assetsFiles fmtSig

/-- The digit class `\d` of the budget regexp in `parseKb`. -/
def isJsDigit (c : Char) : Bool := '0' ≤ c && c ≤ '9'

/-- The whitespace class `\s` of the budget regexp (restricted to its
ASCII members; the distinction plays no role for any claim). -/
def isJsSpace (c : Char) : Bool :=
  c == ' ' || c == '\t' || c == '\n' || c == '\r' || c == '\x0b' || c == '\x0c'

/-- Value of a digit string, as read by JavaScript `Number`. -/
def digitsToNat (ds : List Char) : Nat :=
  List.foldl (fun a c => 10 * a + (c.toNat - '0'.toNat)) 0 ds

/-- The numeric value `Number(m[1])` of a match with integer digits
`ds` and fractional digits `fs` (exact rational arithmetic in place of
IEEE doubles; the rounding claim is unaffected for the magnitudes at
stake and the claims never compare float artifacts). -/
def numVal (ds fs : List Char) : ℚ :=
  (digitsToNat ds : ℚ) + (digitsToNat fs : ℚ) / (10 : ℚ) ^ fs.length

/-- `Math.round` of JavaScript on a non-negative value: floor of x + 1/2. -/
def jsRound (q : ℚ) : ℤ := ⌊q + 1 / 2⌋

/-- `String.prototype.trim`: strip leading and trailing whitespace. -/
def jsTrim (cs : List Char) : List Char :=
  ((cs.dropWhile isJsSpace).reverse.dropWhile isJsSpace).reverse

/-- The tail `\s*kb$` of the budget regexp, case-insensitive. -/
def isKbTail (cs : List Char) : Bool :=
  match cs.dropWhile isJsSpace with
  | [k, b] => (k == 'k' || k == 'K') && (b == 'b' || b == 'B')
  | _ => false

/-- The anchored regexp `^(\d+(?:\.\d+)?)\s*kb$/i` of `parseKb`,
returning `Number(m[1])` on a match.  Greedy digit munching agrees with
the regexp because the digit, dot, whitespace and `kb` character
classes are disjoint. -/
def parseKbCore (cs : List Char) : Option ℚ :=
  let ds := cs.takeWhile isJsDigit
  let rest := cs.dropWhile isJsDigit
  if ds.isEmpty then none
  else
    match rest with
    | c :: rest2 =>
      if c = '.' then
        let fs := rest2.takeWhile isJsDigit
        let rest3 := rest2.dropWhile isJsDigit
        if fs.isEmpty then none
        else if isKbTail rest3 then some (numVal ds fs) else none
      else if isKbTail (c :: rest2) then some (numVal ds []) else none
    | [] => none

/-- `parseKb` in `bin/cli.js`: falsy input (absent field or empty
string) yields `null`; otherwise the trimmed string is matched against
`^(\d+(?:\.\d+)?)\s*kb$/i` and a match yields
`Math.round(Number(m[1]) * 1024)`. -/
def parseKb : Option String → Option Nat
  | none => none
  | some s =>
    if s = "" then none
    else (parseKbCore (jsTrim s.toList)).map fun q => (jsRound (q * 1024)).toNat

/-- Declarative reading of the spec's budget pattern `<number>kb`
(case-insensitive, optional decimal part, optional whitespace before
"kb"), together with the numeric value of the match.  Used to compare
the executable `parseKbCore` against the spec's words. -/
def KbMatch (cs : List Char) (q : ℚ) : Prop :=
  ∃ ds ofs ws k b,
    ds ≠ [] ∧ (∀ c ∈ ds, isJsDigit c = true) ∧
    (∀ c ∈ ws, isJsSpace c = true) ∧
    (k = 'k' ∨ k = 'K') ∧ (b = 'b' ∨ b = 'B') ∧
    match ofs with
    | none => cs = ds ++ ws ++ [k, b] ∧ q = numVal ds []
    | some fs =>
        fs ≠ [] ∧ (∀ c ∈ fs, isJsDigit c = true) ∧
        cs = ds ++ '.' :: fs ++ ws ++ [k, b] ∧ q = numVal ds fs

/-- One entry of the `formats` sequence, restricted to the fields the
reconciliation engine reads.  `width`/`height` are `some w` exactly
when the JS `Number(...)` conversion is finite (the code only ever uses
the converted number); `language`/`lang` and `motive`/`motiveName` are
the two alias pairs the code resolves with `??`; `brandType` stands for
`fmt.brand?.type`; `sig` is the `stableStringify` fingerprint of the
raw entry, carried as data here (the fingerprint function itself is
modelled separately on JSON trees). -/
structure Fmt where
  width : Option Int
  height : Option Int
  language : Option String
  lang : Option String
  motive : Option String
  motiveName : Option String
  size : Option String
  brandType : Option String
  sig : String
deriving Repr, DecidableEq

/-- The fields of the top-level configuration object that the modelled
components read (`getTemplateRoot` reads `cfg?.brand?.type`). -/
structure Cfg where
  brandType : Option String
deriving Repr, DecidableEq

/-- `normalizeSize` in `bin/cli.js`: "WxH" for finite numbers, the
empty string otherwise. -/
def normalizeSize (w h : Option Int) : String :=
  match w, h with
  | some w, some h => s!"{w}x{h}"
  | _, _ => ""

/-- `fmt.language ?? fmt.lang` as in `resolveLangAndMotive`. -/
def langCodeOf (f : Fmt) : Option String :=
  f.language.orElse fun _ => f.lang

/-- `fmt.motive ?? fmt.motiveName` as in `resolveLangAndMotive`. -/
def motiveNameOf (f : Fmt) : Option String :=
  f.motive.orElse fun _ => f.motiveName

/-- The template type resolved by `getTemplateRoot`:
`templateOverride ?? fmt?.brand?.type ?? cfg?.brand?.type ?? "standard"`. -/
def templateTypeOf (templateOverride : Option String) (f : Fmt) (cfg : Cfg) : String :=
  ((templateOverride.orElse fun _ => f.brandType).orElse fun _ => cfg.brandType).getD "standard"

/-- The optional filter sets built by `buildFilters` (JS `Set`s of
strings or indices, modelled as lists queried by membership). -/
structure Filters where
  onlyIndex : Option (List Nat)
  onlySize : Option (List String)
  onlyLang : Option (List String)
  onlyMotive : Option (List String)
  onlyTemplate : Option (List String)
deriving Repr, DecidableEq

/-- The filter state of a run with no filter supplied. -/
def noFilters : Filters := ⟨none, none, none, none, none⟩

/-- `matchesFilters` in `bin/cli.js`: each supplied filter must accept
the format; an absent filter imposes nothing. -/
def matchesFilters (f : Fmt) (idx : Nat) (cfg : Cfg)
    (templateOverride : Option String) (fl : Filters) : Bool :=
  let size := normalizeSize f.width f.height
  let lang := (langCodeOf f).getD ""
  let motive := (motiveNameOf f).getD ""
  let ttype := templateTypeOf templateOverride f cfg
  (match fl.onlyIndex with | none => true | some s => s.contains idx) &&
  (match fl.onlySize with | none => true | some s => s.contains size) &&
  (match fl.onlyLang with | none => true | some s => s.contains lang) &&
  (match fl.onlyMotive with | none => true | some s => s.contains motive) &&
  (match fl.onlyTemplate with | none => true | some s => s.contains ttype)

/-- The observable on-disk facts the engine reads for one banner
folder: whether the entry marker `index.html` exists, the raw
`.gen-state.json` situation, and the asset file names a scan of
`assets/` returns (already filtered and sorted as `readAssets` does —
the scan itself is an external input here). -/
structure BannerDisk where
  hasIndex : Bool
  genFile : GenFile
  assets : List String
deriving Repr, DecidableEq

/-- The output tree: each banner folder, identified by its path
segments below the output root, mapped to its on-disk facts. -/
def Store := List String → BannerDisk

/-- A write to one banner folder of the output tree. -/
def updateStore (st : Store) (k : List String) (v : BannerDisk) : Store :=
  fun q => if q = k then v else st q

/-- `bannerFolderFor` in `bin/cli.js`, as path segments below
`outRoot`: `[lang?] ++ [motive?] ++ ["WxH"]`.  A JS-falsy segment (null
or empty string) is omitted, mirroring `langCode ? [...] : []`. -/
def bannerSegs (langCode motiveName : Option String) (w h : Int) : List String :=
  (match langCode with
    | some l => if l = "" then [] else [l]
    | none => []) ++
  (match motiveName with
    | some m => if m = "" then [] else [m]
    | none => []) ++
  [s!"{w}x{h}"]

/-- The artifact folder a format resolves to, when its width and height
are numeric. -/
def folderKeyOf (f : Fmt) : Option (List String) :=
  match f.width, f.height with
  | some w, some h => some (bannerSegs (langCodeOf f) (motiveNameOf f) w h)
  | _, _ => none

/-- How one loop iteration of `generateFromFormatsJson` classifies its
format, driving the run counters. -/
inductive Outcome where
  | filteredOut
  | skipped
  | created
  | updated
deriving Repr, DecidableEq

/-- The run counters of `generateFromFormatsJson`. -/
structure Counts where
  processed : Nat
  created : Nat
  updated : Nat
  skipped : Nat
  filteredOut : Nat
deriving Repr, DecidableEq

/-- Counters at the start of a run. -/
def initCounts : Counts := ⟨0, 0, 0, 0, 0⟩

/-- Counter bookkeeping of the loop: a render bumps `processed` and one
of `created`/`updated` depending on the pre-existence test. -/
def applyOutcome (c : Counts) : Outcome → Counts
  | .filteredOut => { c with filteredOut := c.filteredOut + 1 }
  | .skipped => { c with skipped := c.skipped + 1 }
  | .created => { c with processed := c.processed + 1, created := c.created + 1 }
  | .updated => { c with processed := c.processed + 1, updated := c.updated + 1 }

/-- The fatal errors `generateFromFormatsJson` can throw. -/
inductive RunError where
  | noFormats
  | invalidSize
  | templateNotFound (ttype : String)
deriving Repr, DecidableEq

/-- The per-run inputs of `generateFromFormatsJson` that the modelled
loop reads: mode, filters, template override, configuration, and which
template type folders exist on disk under `templates/`. -/
structure RunEnv where
  mode : Mode
  filters : Filters
  templateOverride : Option String
  cfg : Cfg
  templates : String → Bool

/-- Outcome of a (possibly aborted) run: the output tree, the counters,
and the fatal error if one was thrown.  A thrown error leaves all disk
changes made so far in place. -/
structure RunResult where
  store : Store
  counts : Counts
  err : Option RunError

/-- One iteration of the `for` loop of `generateFromFormatsJson` for
format `f` at list index `idx`, in source order: filter test, fatal
width/height check, existence test via the entry marker,
`shouldProcessBanner`, fatal template-root check, asset scan,
`readGenState`, `shouldRenderBanner`, then render plus `writeGenState`.
A render is modelled by its observable effect on the folder: the entry
marker exists afterwards (the template provides the `index.html`
source), the assets are untouched (both the template copy and the
renderer leave `assets/` alone), and a fresh generation state is
persisted.  Zipping and the size check read the folder but never write
it, so they do not appear in the store. -/
def stepFormat (env : RunEnv) (idx : Nat) (f : Fmt) (st : Store) :
    Except RunError (Store × Outcome) :=
  if !matchesFilters f idx env.cfg env.templateOverride env.filters then
    .ok (st, .filteredOut)
  else
    match f.width, f.height with
    | some w, some h =>
      let k := bannerSegs (langCodeOf f) (motiveNameOf f) w h
      let ex := (st k).hasIndex
      if !shouldProcessBanner env.mode ex then .ok (st, .skipped)
      else
        let ttype := templateTypeOf env.templateOverride f env.cfg
        if !env.templates ttype then .error (.templateNotFound ttype)
        else
          let assetsFiles := (st k).assets
          let prevState := readGenState (st k).genFile
          if !shouldRenderBanner env.mode ex prevState assetsFiles f.sig then
            .ok (st, .skipped)
          else
            .ok (updateStore st k ⟨true, .parsed ⟨some assetsFiles, some f.sig⟩, assetsFiles⟩,
              if ex then .updated else .created)
    | _, _ => .error .invalidSize

/-- The loop of `generateFromFormatsJson` over the (index, format)
pairs: a thrown error stops all further processing but keeps the store
and counters accumulated so far. -/
def runFormatsAux (env : RunEnv) : List (Nat × Fmt) → RunResult → RunResult
  | [], r => r
  | (idx, f) :: rest, r =>
    if r.err.isSome then r
    else
      match stepFormat env idx f r.store with
      | .error e => runFormatsAux env rest ⟨r.store, r.counts, some e⟩
      | .ok (st, out) => runFormatsAux env rest ⟨st, applyOutcome r.counts out, none⟩

/-- `generateFromFormatsJson`: an empty format list is fatal, otherwise
the loop runs over the enumerated formats with fresh counters. -/
def generate (env : RunEnv) (formats : List Fmt) (st : Store) : RunResult :=
  if formats.isEmpty then ⟨st, initCounts, some .noFormats⟩
  else runFormatsAux env formats.enum ⟨st, initCounts, none⟩

/-- A folder's state records exactly the render inputs of format `f`:
the entry marker exists and the persisted generation state matches the
folder's current assets and the format's fingerprint.  This is the
up-to-date condition of the incremental mode. -/
def StoreMatches (f : Fmt) (st : Store) : Prop :=
  ∃ k, folderKeyOf f = some k ∧ (st k).hasIndex = true ∧
    readGenState (st k).genFile = some ⟨some (st k).assets, some f.sig⟩

/-- No two formats of an enumerated list resolve to the same artifact
folder. -/
def DistinctFolders (l : List (Nat × Fmt)) : Prop :=
  l.Pairwise fun p q => ∀ k, folderKeyOf p.2 = some k → folderKeyOf q.2 ≠ some k

/-- The record returned by `checkZipSize` in `bin/cli.js`, together
with what the function prints.  The skip branch returns
`{ ok: true, skipped: true }` (no `actualBytes`/`maxBytes` fields, and
nothing is printed); the comparison branch returns
`{ ok, actualBytes, maxBytes }` (no `skipped` field, modelled as
`false`) and prints the ok line or the oversize warning. -/
structure SizeCheckResult where
  ok : Bool
  skipped : Bool
  actualBytes : Option Nat
  maxBytes : Option Nat
  /-- `some true` = "ZIP size ok" logged, `some false` = "ZIP OVERSIZE"
  warned, `none` = nothing printed. -/
  log : Option Bool
deriving Repr, DecidableEq

/-- `checkZipSize` in `bin/cli.js` on an archive of `actual` bytes with
declared byte budget `maxBytes` (the result of `parseKb`).  The JS
guard `if (!maxBytes)` is true both for `null` and for a declared
budget of `0` bytes, so both fall into the skip branch. -/
def checkZipSize (actual : Nat) (maxBytes : Option Nat) : SizeCheckResult :=
  match maxBytes with
  | none => ⟨true, true, none, none, none⟩
  | some 0 => ⟨true, true, none, none, none⟩
  | some b => ⟨decide (actual ≤ b), false, some actual, some b, some (decide (actual ≤ b))⟩

/-- A file tree as a partial map from file paths (segments relative to
the tree root, file name last) to file contents. -/
def Dir := List String → Option String

/-- The copy filter of `ensureTemplateOnCreate`:
`(src) => !src.includes(sep + "assets" + sep)` excludes every file
lying inside an `assets` directory, i.e. any path with a directory
segment named "assets". -/
def underAssets (p : List String) : Bool := p.dropLast.contains "assets"

/-- `fs.copy(templateRoot, bannerFolder, { overwrite: false,
errorOnExist: false, filter })` as used by `ensureTemplateOnCreate`: a
template file lands at its path unless the filter excludes it or the
destination already holds a file there; existing destination files are
never replaced (overwrite is off and existing files are not errors). -/
def copyTemplate (tmpl : List (List String × String)) (dst : Dir) : Dir :=
  fun p =>
    match dst p with
    | some c => some c
    | none => if underAssets p then none else List.lookup p tmpl

/-- `ensureTemplateOnCreate` in `bin/cli.js`: the template tree is
copied only when the existence test was false; an existing artifact is
returned untouched. -/
def ensureTemplateOnCreate (tmpl : List (List String × String)) (ex : Bool)
    (dst : Dir) : Dir :=
  if ex then dst else copyTemplate tmpl dst

/-- String suffix test (`String.prototype.endsWith` / the `*.mustache`
glob), computed on the character lists. -/
def endsWithStr (s suffix : String) : Bool :=
  List.isSuffixOf suffix.toList s.toList

/-- The glob ignore list of `zipFolder` in `bin/cli.js`: does one of
`**/*.mustache`, `**/.DS_Store`, `**/Thumbs.db`, `**/.gen-state.json`
match the file (by base name, at any depth)? -/
def zipIgnored (p : List String) : Bool :=
  endsWithStr (p.getLastD "") ".mustache" || p.getLastD "" == ".DS_Store" ||
    p.getLastD "" == "Thumbs.db" || p.getLastD "" == ".gen-state.json"

/-- `zipFolder` in `bin/cli.js`: the archive holds the directory's
files (`**/*` with `dot: true`) minus the ignored ones. -/
def zipFolder (files : List (List String)) : List (List String) :=
  files.filter fun p => !zipIgnored p

/-- `zipFolder` of the legacy single-file CLI:
`archive.directory(srcDir, false)` — the whole directory, with no
exclusions. -/
def zipFolderLegacy (files : List (List String)) : List (List String) := files

/-- JSON values, as parsed from `formats.json`.  Numbers are modelled
as integers and strings as their unescaped text: neither representation
choice plays any role in the key-order claim. -/
inductive JsonVal where
  | null
  | bool (b : Bool)
  | num (n : Int)
  | str (s : String)
  | arr (xs : List JsonVal)
  | obj (fields : List (String × JsonVal))

/-- The field order produced by `Object.keys(x).sort()`: compare field
names. -/
def keyLE (a b : String × JsonVal) : Prop := a.1 ≤ b.1

instance : DecidableRel keyLE := fun a b =>
  inferInstanceAs (Decidable (a.1 ≤ b.1))

instance : IsTotal (String × JsonVal) keyLE := ⟨fun a b => le_total a.1 b.1⟩

instance : IsTrans (String × JsonVal) keyLE := ⟨fun _ _ _ h h2 => le_trans h h2⟩

/-- Strict field-name order; antisymmetric, which makes the sorted form
of a duplicate-free field list unique. -/
def keyLT (a b : String × JsonVal) : Prop := a.1 < b.1

instance : IsAntisymm (String × JsonVal) keyLT :=
  ⟨fun _ _ h h2 => absurd h2 (lt_asymm h)⟩

mutual
/-- The `sorter` of `stableStringify` in `bin/cli.js`: recursively sort
mapping keys, preserve sequence order, leave scalars unchanged.  The
source sorts the keys first and then recurses into the values; since
sorting permutes whole fields and the recursion is pointwise on values,
recursing first and sorting afterwards — as here — builds the same
tree.  (The `WeakSet` cycle bookkeeping of the source is invisible on
trees, which is all `JSON.parse` can produce.) -/
def sortJson : JsonVal → JsonVal
  | .null => .null
  | .bool b => .bool b
  | .num n => .num n
  | .str s => .str s
  | .arr xs => .arr (sortJsonList xs)
  | .obj fs => .obj (List.insertionSort keyLE (sortJsonFields fs))

/-- Pointwise `sorter` over a JSON sequence, in order. -/
def sortJsonList : List JsonVal → List JsonVal
  | [] => []
  | x :: xs => sortJson x :: sortJsonList xs

/-- Pointwise `sorter` over the field values of a mapping. -/
def sortJsonFields : List (String × JsonVal) → List (String × JsonVal)
  | [] => []
  | (k, v) :: fs => (k, sortJson v) :: sortJsonFields fs
end

mutual
/-- `JSON.stringify` (string escaping elided; only injectivity-free
serialization of the already-sorted tree matters for the claim). -/
def serialize : JsonVal → String
  | .null => "null"
  | .bool b => if b then "true" else "false"
  | .num n => toString n
  | .str s => "\"" ++ s ++ "\""
  | .arr xs => "[" ++ serializeList xs ++ "]"
  | .obj fs => "\x7b" ++ serializeFields fs ++ "\x7d"

/-- Comma-joined serialization of a sequence. -/
def serializeList : List JsonVal → String
  | [] => ""
  | [x] => serialize x
  | x :: xs => serialize x ++ "," ++ serializeList xs

/-- Comma-joined serialization of mapping fields. -/
def serializeFields : List (String × JsonVal) → String
  | [] => ""
  | [(k, v)] => "\"" ++ k ++ "\":" ++ serialize v
  | (k, v) :: fs => "\"" ++ k ++ "\":" ++ serialize v ++ "," ++ serializeFields fs
end

/-- `stableStringify` in `bin/cli.js`: serialize the key-sorted tree. -/
def stableStringify (v : JsonVal) : String := serialize (sortJson v)

mutual
/-- Well-formedness of a parsed JSON value: every mapping's keys are
duplicate free, recursively (guaranteed for anything produced by
`JSON.parse`). -/
def jsonWF : JsonVal → Bool
  | .null => true
  | .bool _ => true
  | .num _ => true
  | .str _ => true
  | .arr xs => jsonWFList xs
  | .obj fs => decide ((fs.map Prod.fst).Nodup) && jsonWFFields fs

/-- Well-formedness of each member of a sequence. -/
def jsonWFList : List JsonVal → Bool
  | [] => true
  | x :: xs => jsonWF x && jsonWFList xs

/-- Well-formedness of each field value of a mapping. -/
def jsonWFFields : List (String × JsonVal) → Bool
  | [] => true
  | (_, v) :: fs => jsonWF v && jsonWFFields fs
end

mutual
/-- `w` arises from `v` by permuting the key-insertion order of its
mappings, recursively: values are rewritten recursively and then the
field list is permuted; sequences keep their order; scalars are
untouched. -/
inductive KeyPerm : JsonVal → JsonVal → Prop where
  | null : KeyPerm .null .null
  | bool (b : Bool) : KeyPerm (.bool b) (.bool b)
  | num (n : Int) : KeyPerm (.num n) (.num n)
  | str (s : String) : KeyPerm (.str s) (.str s)
  | arr {xs ys : List JsonVal} : KeyPermList xs ys → KeyPerm (.arr xs) (.arr ys)
  | obj {fs gs hs : List (String × JsonVal)} : KeyPermFields fs gs →
      List.Perm gs hs → KeyPerm (.obj fs) (.obj hs)

/-- Pointwise `KeyPerm` over sequences (order preserved). -/
inductive KeyPermList : List JsonVal → List JsonVal → Prop where
  | nil : KeyPermList [] []
  | cons {x y : JsonVal} {xs ys : List JsonVal} : KeyPerm x y → KeyPermList xs ys →
      KeyPermList (x :: xs) (y :: ys)

/-- Pointwise `KeyPerm` over field values (keys and order preserved). -/
inductive KeyPermFields : List (String × JsonVal) → List (String × JsonVal) → Prop where
  | nil : KeyPermFields [] []
  | cons {k : String} {v w : JsonVal} {fs gs : List (String × JsonVal)} :
      KeyPerm v w → KeyPermFields fs gs →
      KeyPermFields ((k, v) :: fs) ((k, w) :: gs)
end

end BannerGen

namespace BannerGen

/-- C1: mode exclusivity of the reconciliation engine.  In create-only
mode an existing artifact is never rendered; in update mode a missing
artifact is never processed (skipped) and never rendered; in
incremental mode a render happens iff the artifact is missing, or there
is no persisted generation state, or the persisted asset filename
sequence differs from the current one, or the persisted fingerprint
differs from the current one. -/
theorem mode_exclusivity :
    (∀ prev assets sig, rendersThisPass .createOnly true prev assets sig = false) ∧
    (shouldProcessBanner .createOnly true = false) ∧
    (∀ prev assets sig, rendersThisPass .update false prev assets sig = false) ∧
    (shouldProcessBanner .update false = false) ∧
    (∀ ex prev assets sig,
      rendersThisPass .incremental ex prev assets sig = true ↔
        (ex = false ∨ prev = none ∨
          ∃ p, prev = some p ∧ (p.assetsFiles ≠ some assets ∨ p.fmtSig ≠ some sig))) := by
  refine ⟨?_, rfl, ?_, rfl, ?_⟩
  · intro prev assets sig
    simp [rendersThisPass, shouldProcessBanner]
  · intro prev assets sig
    simp [rendersThisPass, shouldProcessBanner]
  · intro ex prev assets sig
    rcases prev with _ | ⟨af, fs⟩
    · cases ex <;>
        simp [rendersThisPass, shouldProcessBanner, shouldRenderBanner]
    · cases ex <;> rcases af with _ | xs <;>
        simp [rendersThisPass, shouldProcessBanner, shouldRenderBanner,
          sameStringArray]

/-- C4 counterexample: the size budget "0kb" parses to a declared budget
of 0 bytes, yet `checkZipSize` takes the skip branch (the JS falsy test
`!maxBytes` conflates 0 with null) and reports `ok: true` even though
the actual size 1000 exceeds the declared budget 0 — so "the check
reports ok iff S ≤ B" fails for a declared zero budget. -/
theorem sizeGuard_claim_counterexample :
    parseKb (some "0kb") = some 0 ∧
    (checkZipSize 1000 (parseKb (some "0kb"))).ok = true ∧
    (checkZipSize 1000 (parseKb (some "0kb"))).skipped = true ∧
    ¬(1000 ≤ 0) := by
  have hcore : parseKbCore (jsTrim ['0', 'k', 'b']) = some 0 := by
    simp +decide [parseKbCore, jsTrim, isKbTail, numVal, digitsToNat]
  have hne : ¬("0kb" = "") := by decide
  have h : parseKb (some "0kb") = some 0 := by
    simp [parseKb, hne]
    exact ⟨0, hcore, by norm_num [jsRound]⟩
  refine ⟨h, ?_, ?_, by decide⟩ <;> rw [h] <;> rfl

/-- C4 amended: with no declared budget, or with a declared budget that
parses to 0 bytes, `checkZipSize` skips: it performs no comparison,
prints nothing, and returns `{ ok: true, skipped: true }` (note the
`ok` field of the skip record is `true`; only the printed report stays
silent).  With a declared positive budget B the check is genuine: the
result is not marked skipped and it reports ok — both in the record and
on the console — iff S ≤ B, warning oversize otherwise. -/
theorem sizeGuard_behavior :
    (∀ S, checkZipSize S none = ⟨true, true, none, none, none⟩) ∧
    (∀ S, checkZipSize S (some 0) = ⟨true, true, none, none, none⟩) ∧
    (∀ S b, checkZipSize S (some (b + 1)) =
      ⟨decide (S ≤ b + 1), false, some S, some (b + 1), some (decide (S ≤ b + 1))⟩) ∧
    (∀ S b, ((checkZipSize S (some (b + 1))).ok = true ↔ S ≤ b + 1) ∧
      ((checkZipSize S (some (b + 1))).log = some true ↔ S ≤ b + 1) ∧
      (checkZipSize S (some (b + 1))).skipped = false) := by
  refine ⟨fun S => rfl, fun S => rfl, fun S b => rfl, fun S b => ?_⟩
  simp [checkZipSize]

/-- C7: filter conjunction.  A format passes `matchesFilters` iff it
satisfies every supplied predicate (index, size string, language,
motive, resolved template type); an absent filter imposes no
constraint, and with zero filters supplied every format passes. -/
theorem filter_conjunction :
    (∀ f idx cfg tov fl,
      matchesFilters f idx cfg tov fl = true ↔
        ((∀ s, fl.onlyIndex = some s → idx ∈ s) ∧
         (∀ s, fl.onlySize = some s → normalizeSize f.width f.height ∈ s) ∧
         (∀ s, fl.onlyLang = some s → (langCodeOf f).getD "" ∈ s) ∧
         (∀ s, fl.onlyMotive = some s → (motiveNameOf f).getD "" ∈ s) ∧
         (∀ s, fl.onlyTemplate = some s → templateTypeOf tov f cfg ∈ s))) ∧
    (∀ f idx cfg tov, matchesFilters f idx cfg tov noFilters = true) := by
  constructor
  · intro f idx cfg tov fl
    obtain ⟨oi, os, ol, om, ot⟩ := fl
    cases oi <;> cases os <;> cases ol <;> cases om <;> cases ot <;>
      simp [matchesFilters] <;> tauto
  · intro f idx cfg tov
    simp [matchesFilters, noFilters]

/-- Witness for C7: a format with index 0 passes a run filtered to
index 0 and size "300x250". -/
theorem filter_conjunction_witness :
    matchesFilters ⟨some 300, some 250, none, none, none, none, none, none, "s"⟩
      0 ⟨none⟩ none ⟨some [0], some ["300x250"], none, none, none⟩ = true := by
  refine (filter_conjunction.1 _ 0 ⟨none⟩ none _).mpr ⟨?_, ?_, ?_, ?_, ?_⟩ <;>
    (intro s hs; cases hs) <;> decide

/-- Witness for C1: in incremental mode a missing artifact is rendered. -/
theorem mode_exclusivity_witness :
    rendersThisPass .incremental false none [] "" = true :=
  (mode_exclusivity.2.2.2.2 false none [] "").mpr (Or.inl rfl)

theorem runFormatsAux_err (env : RunEnv) :
    ∀ (l : List (Nat × Fmt)) (r : RunResult), r.err.isSome = true →
      runFormatsAux env l r = r
  | [], _, _ => rfl
  | (idx, f) :: rest, r, h => by simp [runFormatsAux, h]

theorem runFormatsAux_err_some (env : RunEnv) (l : List (Nat × Fmt))
    (st : Store) (c : Counts) (e : RunError) :
    runFormatsAux env l ⟨st, c, some e⟩ = ⟨st, c, some e⟩ :=
  runFormatsAux_err env l _ rfl

theorem runFormatsAux_append (env : RunEnv) :
    ∀ (l₁ l₂ : List (Nat × Fmt)) (r : RunResult),
      runFormatsAux env (l₁ ++ l₂) r = runFormatsAux env l₂ (runFormatsAux env l₁ r)
  | [], l₂, r => rfl
  | (idx, f) :: rest, l₂, r => by
    rw [List.cons_append]
    by_cases h : r.err.isSome = true
    · simp only [runFormatsAux, h, if_true, runFormatsAux_err env l₂ r h]
    · simp only [runFormatsAux, h, if_false, Bool.false_eq_true]
      cases hstep : stepFormat env idx f r.store with
      | error e => simp only [runFormatsAux_append env rest l₂ _]
      | ok p => exact runFormatsAux_append env rest l₂ _

theorem shouldProcessBanner_incremental (ex : Bool) :
    shouldProcessBanner .incremental ex = true := by
  cases ex <;> rfl

/-- In incremental mode, the render decision is negative exactly when
the artifact exists and the persisted state matches the current assets
and fingerprint. -/
theorem shouldRender_incr_eq_false (ex : Bool) (prev : Option PrevState)
    (assets : List String) (sig : String) :
    shouldRenderBanner .incremental ex prev assets sig = false ↔
      ex = true ∧ prev = some ⟨some assets, some sig⟩ := by
  rcases prev with _ | ⟨af, fs⟩
  · cases ex <;> simp [shouldRenderBanner]
  · cases ex <;> rcases af with _ | xs <;>
      simp [shouldRenderBanner, sameStringArray]

/-- C9: a missing or unparseable `.gen-state.json` reads as absent
prior state (`readGenState` returns null); absent prior state makes the
incremental render decision positive; and a loop iteration that meets a
corrupt state file in incremental mode does not abort: it re-renders
the artifact and persists a fresh, parseable generation state capturing
the current assets and fingerprint. -/
theorem corrupt_state_recovers :
    readGenState .missing = none ∧
    readGenState .corrupt = none ∧
    (∀ ex assets sig, shouldRenderBanner .incremental ex none assets sig = true) ∧
    (∀ env idx f (st : Store) w h,
      env.mode = .incremental →
      f.width = some w → f.height = some h →
      matchesFilters f idx env.cfg env.templateOverride env.filters = true →
      env.templates (templateTypeOf env.templateOverride f env.cfg) = true →
      (st (bannerSegs (langCodeOf f) (motiveNameOf f) w h)).genFile = .corrupt →
      stepFormat env idx f st =
        .ok (updateStore st (bannerSegs (langCodeOf f) (motiveNameOf f) w h)
            ⟨true,
             .parsed ⟨some (st (bannerSegs (langCodeOf f) (motiveNameOf f) w h)).assets,
               some f.sig⟩,
             (st (bannerSegs (langCodeOf f) (motiveNameOf f) w h)).assets⟩,
          if (st (bannerSegs (langCodeOf f) (motiveNameOf f) w h)).hasIndex then
            .updated
          else .created)) := by
  refine ⟨rfl, rfl, ?_, ?_⟩
  · intro ex assets sig
    cases ex <;> rfl
  · intro env idx f st w h hm hw hh hmf ht hcor
    simp [stepFormat, hmf, hw, hh, hm, ht, hcor, readGenState,
      shouldProcessBanner_incremental, shouldRenderBanner]

/-- Witness for C9: a concrete incremental iteration over a folder with
a corrupt state file renders it and writes a fresh state. -/
theorem corrupt_state_recovers_witness :
    stepFormat ⟨.incremental, noFilters, none, ⟨none⟩, fun _ => true⟩ 0
        ⟨some 300, some 250, none, none, none, none, none, none, "sig"⟩
        (fun _ => ⟨true, .corrupt, ["a.png"]⟩) =
      .ok (updateStore (fun _ => ⟨true, .corrupt, ["a.png"]⟩)
          (bannerSegs none none 300 250)
          ⟨true, .parsed ⟨some ["a.png"], some "sig"⟩, ["a.png"]⟩,
        .updated) :=
  corrupt_state_recovers.2.2.2
    ⟨.incremental, noFilters, none, ⟨none⟩, fun _ => true⟩ 0
    ⟨some 300, some 250, none, none, none, none, none, none, "sig"⟩
    (fun _ => ⟨true, .corrupt, ["a.png"]⟩) 300 250 rfl rfl rfl rfl rfl rfl

/-- A loop iteration that reaches a format through the filters leaves
the store unchanged unless it renders, and a render writes exactly the
format's own folder. -/
theorem stepFormat_ok_shape (env : RunEnv) (idx : Nat) (f : Fmt) (st st2 : Store)
    (out : Outcome) (h : stepFormat env idx f st = .ok (st2, out)) :
    st2 = st ∨ ∃ k, folderKeyOf f = some k ∧
      st2 = updateStore st k ⟨true, .parsed ⟨some (st k).assets, some f.sig⟩, (st k).assets⟩ := by
  by_cases hmf : matchesFilters f idx env.cfg env.templateOverride env.filters = true
  · rcases hw : f.width with _ | w
    · simp [stepFormat, hmf, hw] at h
    · rcases hh : f.height with _ | hgt
      · simp [stepFormat, hmf, hw, hh] at h
      · simp only [stepFormat, hmf, hw, hh, Bool.not_true, Bool.false_eq_true,
          if_false] at h
        split at h
        · exact Or.inl (congrArg Prod.fst (Except.ok.inj h)).symm
        · split at h
          · simp at h
          · split at h
            · exact Or.inl (congrArg Prod.fst (Except.ok.inj h)).symm
            · refine Or.inr ⟨bannerSegs (langCodeOf f) (motiveNameOf f) w hgt,
                by simp [folderKeyOf, hw, hh], ?_⟩
              exact (congrArg Prod.fst (Except.ok.inj h)).symm
  · simp only [stepFormat, hmf] at h
    exact Or.inl (congrArg Prod.fst (Except.ok.inj h)).symm

/-- Folders other than a format's own are untouched by its iteration. -/
theorem stepFormat_frame (env : RunEnv) (idx : Nat) (f : Fmt) (st st2 : Store)
    (out : Outcome) (h : stepFormat env idx f st = .ok (st2, out))
    (k : List String) (hk : folderKeyOf f ≠ some k) : st2 k = st k := by
  rcases stepFormat_ok_shape env idx f st st2 out h with rfl | ⟨k0, hk0, rfl⟩
  · rfl
  · have : k ≠ k0 := fun hkk => hk (hkk ▸ hk0)
    simp [updateStore, this]

/-- A folder no remaining format resolves to keeps its state for the
rest of the run. -/
theorem runFormatsAux_preserve (env : RunEnv) :
    ∀ (l : List (Nat × Fmt)) (r : RunResult) (k : List String),
      (∀ p ∈ l, folderKeyOf p.2 ≠ some k) →
      (runFormatsAux env l r).store k = r.store k
  | [], _, _, _ => rfl
  | (idx, f) :: rest, r, k, hall => by
    by_cases herr : r.err.isSome = true
    · rw [runFormatsAux_err env _ r herr]
    · simp only [runFormatsAux, herr, Bool.false_eq_true, if_false]
      cases hstep : stepFormat env idx f r.store with
      | error e =>
        exact runFormatsAux_preserve env rest _ k fun p hp => hall p (List.mem_cons_of_mem _ hp)
      | ok p =>
        obtain ⟨st2, out⟩ := p
        rw [runFormatsAux_preserve env rest _ k fun p hp => hall p (List.mem_cons_of_mem _ hp)]
        exact stepFormat_frame env idx f r.store st2 out hstep k
          (hall (idx, f) (List.mem_cons_self _ _))

/-- In incremental mode, a loop iteration that passes the filters and
does not abort leaves its folder up to date for its format: either it
skipped because the folder already was up to date, or it rendered and
persisted a matching state. -/
theorem stepFormat_incr_inv (env : RunEnv) (idx : Nat) (f : Fmt) (st st2 : Store)
    (out : Outcome) (hm : env.mode = .incremental)
    (hmf : matchesFilters f idx env.cfg env.templateOverride env.filters = true)
    (h : stepFormat env idx f st = .ok (st2, out)) :
    env.templates (templateTypeOf env.templateOverride f env.cfg) = true ∧
    StoreMatches f st2 := by
  rcases hw : f.width with _ | w
  · simp [stepFormat, hmf, hw] at h
  · rcases hh : f.height with _ | hgt
    · simp [stepFormat, hmf, hw, hh] at h
    · simp only [stepFormat, hmf, hw, hh, hm, shouldProcessBanner_incremental,
        Bool.not_true, Bool.false_eq_true, if_false] at h
      split at h
      · simp at h
      · rename_i htmpl
        have ht : env.templates (templateTypeOf env.templateOverride f env.cfg) = true := by
          simpa using htmpl
        refine ⟨ht, ?_⟩
        split at h
        · rename_i hsr
          have hsr2 : shouldRenderBanner .incremental
              ((st (bannerSegs (langCodeOf f) (motiveNameOf f) w hgt)).hasIndex)
              (readGenState (st (bannerSegs (langCodeOf f) (motiveNameOf f) w hgt)).genFile)
              ((st (bannerSegs (langCodeOf f) (motiveNameOf f) w hgt)).assets) f.sig
              = false := by simpa using hsr
          obtain ⟨hex, hprev⟩ := (shouldRender_incr_eq_false _ _ _ _).mp hsr2
          injection h with hpair
          injection hpair with h1 h2
          subst h1
          exact ⟨bannerSegs (langCodeOf f) (motiveNameOf f) w hgt,
            by simp [folderKeyOf, hw, hh], hex, by rw [hprev]⟩
        · injection h with hpair
          injection hpair with h1 h2
          subst h1
          exact ⟨bannerSegs (langCodeOf f) (motiveNameOf f) w hgt,
            by simp [folderKeyOf, hw, hh], by simp [updateStore],
            by simp [updateStore, readGenState]⟩

/-- In incremental mode, an iteration over an up-to-date folder (and an
existing template root) is a pure skip: no error, no store change. -/
theorem stepFormat_skip (env : RunEnv) (idx : Nat) (f : Fmt) (st : Store)
    (hm : env.mode = .incremental)
    (hmf : matchesFilters f idx env.cfg env.templateOverride env.filters = true)
    (ht : env.templates (templateTypeOf env.templateOverride f env.cfg) = true)
    (hsm : StoreMatches f st) :
    stepFormat env idx f st = .ok (st, .skipped) := by
  obtain ⟨k, hk, hidx, hgen⟩ := hsm
  rcases hw : f.width with _ | w
  · simp [folderKeyOf, hw] at hk
  · rcases hh : f.height with _ | hgt
    · simp [folderKeyOf, hw, hh] at hk
    · simp only [folderKeyOf, hw, hh, Option.some.injEq] at hk
      subst hk
      have hsr : shouldRenderBanner .incremental
          ((st (bannerSegs (langCodeOf f) (motiveNameOf f) w hgt)).hasIndex)
          (readGenState (st (bannerSegs (langCodeOf f) (motiveNameOf f) w hgt)).genFile)
          ((st (bannerSegs (langCodeOf f) (motiveNameOf f) w hgt)).assets) f.sig = false := by
        rw [hidx]
        exact (shouldRender_incr_eq_false _ _ _ _).mpr ⟨rfl, hgen⟩
      simp [stepFormat, hmf, hw, hh, hm, shouldProcessBanner_incremental, ht, hsr]

/-- In an incremental run that completes without error, every format
that passes the filters ends the run with an existing template root and
an up-to-date folder (provided no two formats share a folder). -/
theorem runFormatsAux_dichotomy (env : RunEnv) (hm : env.mode = .incremental) :
    ∀ (l : List (Nat × Fmt)) (st : Store) (c : Counts),
      DistinctFolders l →
      (runFormatsAux env l ⟨st, c, none⟩).err = none →
      ∀ p ∈ l,
        matchesFilters p.2 p.1 env.cfg env.templateOverride env.filters = false ∨
        (matchesFilters p.2 p.1 env.cfg env.templateOverride env.filters = true ∧
         env.templates (templateTypeOf env.templateOverride p.2 env.cfg) = true ∧
         StoreMatches p.2 (runFormatsAux env l ⟨st, c, none⟩).store)
  | [], _, _, _, _, p, hp => absurd hp (List.not_mem_nil p)
  | (i, f) :: rest, st, c, hd, herr, p, hp => by
    cases hstep : stepFormat env i f st with
    | error e =>
      exfalso
      have hR : runFormatsAux env ((i, f) :: rest) ⟨st, c, none⟩ =
          runFormatsAux env rest ⟨st, c, some e⟩ := by
        simp [runFormatsAux, hstep]
      rw [hR, runFormatsAux_err_some] at herr
      simp at herr
    | ok q =>
      obtain ⟨st2, out⟩ := q
      have hR : runFormatsAux env ((i, f) :: rest) ⟨st, c, none⟩ =
          runFormatsAux env rest ⟨st2, applyOutcome c out, none⟩ := by
        simp [runFormatsAux, hstep]
      rw [hR] at herr ⊢
      rcases List.mem_cons.mp hp with heq | hp2
      · subst heq
        by_cases hmf : matchesFilters f i env.cfg env.templateOverride env.filters = true
        · right
          obtain ⟨ht, hsm⟩ := stepFormat_incr_inv env i f st st2 out hm hmf hstep
          obtain ⟨k, hk, hidx, hgen⟩ := hsm
          have hpres : (runFormatsAux env rest ⟨st2, applyOutcome c out, none⟩).store k
              = st2 k :=
            runFormatsAux_preserve env rest _ k
              (fun q hq => (List.pairwise_cons.mp hd).1 q hq k hk)
          exact ⟨hmf, ht, k, hk, by rw [hpres]; exact hidx, by rw [hpres]; exact hgen⟩
        · left
          simpa using hmf
      · exact runFormatsAux_dichotomy env hm rest st2 (applyOutcome c out)
          (List.pairwise_cons.mp hd).2 herr p hp2

/-- An incremental run over formats whose folders are all already up to
date (or which the filters drop) does nothing: the store is returned
unchanged, no error occurs, no format is processed, and every format is
counted as skipped or filtered out. -/
theorem runFormatsAux_skips (env : RunEnv) (hm : env.mode = .incremental) :
    ∀ (l : List (Nat × Fmt)) (st : Store) (c : Counts),
      (∀ p ∈ l,
        matchesFilters p.2 p.1 env.cfg env.templateOverride env.filters = false ∨
        (matchesFilters p.2 p.1 env.cfg env.templateOverride env.filters = true ∧
         env.templates (templateTypeOf env.templateOverride p.2 env.cfg) = true ∧
         StoreMatches p.2 st)) →
      (runFormatsAux env l ⟨st, c, none⟩).store = st ∧
      (runFormatsAux env l ⟨st, c, none⟩).err = none ∧
      (runFormatsAux env l ⟨st, c, none⟩).counts.processed = c.processed ∧
      (runFormatsAux env l ⟨st, c, none⟩).counts.created = c.created ∧
      (runFormatsAux env l ⟨st, c, none⟩).counts.updated = c.updated ∧
      (runFormatsAux env l ⟨st, c, none⟩).counts.skipped +
          (runFormatsAux env l ⟨st, c, none⟩).counts.filteredOut =
        c.skipped + c.filteredOut + l.length
  | [], st, c, _ => by simp [runFormatsAux]
  | (i, f) :: rest, st, c, hall => by
    have htail := fun p hp => hall p (List.mem_cons_of_mem _ hp)
    rcases hall (i, f) (List.mem_cons_self _ _) with hmf | ⟨hmf, ht, hsm⟩
    · have hstep : stepFormat env i f st = .ok (st, .filteredOut) := by
        simp [stepFormat, hmf]
      have hR : runFormatsAux env ((i, f) :: rest) ⟨st, c, none⟩ =
          runFormatsAux env rest ⟨st, applyOutcome c .filteredOut, none⟩ := by
        simp [runFormatsAux, hstep]
      rw [hR]
      have IH := runFormatsAux_skips env hm rest st (applyOutcome c .filteredOut) htail
      obtain ⟨i1, i2, i3, i4, i5, i6⟩ := IH
      simp only [applyOutcome] at i3 i4 i5 i6 ⊢
      exact ⟨i1, i2, by omega, by omega, by omega, by simp only [List.length_cons]; omega⟩
    · have hstep : stepFormat env i f st = .ok (st, .skipped) :=
        stepFormat_skip env i f st hm hmf ht hsm
      have hR : runFormatsAux env ((i, f) :: rest) ⟨st, c, none⟩ =
          runFormatsAux env rest ⟨st, applyOutcome c .skipped, none⟩ := by
        simp [runFormatsAux, hstep]
      rw [hR]
      have IH := runFormatsAux_skips env hm rest st (applyOutcome c .skipped) htail
      obtain ⟨i1, i2, i3, i4, i5, i6⟩ := IH
      simp only [applyOutcome] at i3 i4 i5 i6 ⊢
      exact ⟨i1, i2, by omega, by omega, by omega, by simp only [List.length_cons]; omega⟩

/-- C2 counterexample: two formats with identical size and no
language/motive resolve to the same artifact folder; with different
fingerprints each run renders both (the second overwrites the state the
first just wrote), so an immediate second incremental run over the
unchanged configuration and assets still performs two renders
(updated = 2, not 0). -/
theorem incremental_idempotence_counterexample :
    (generate ⟨.incremental, noFilters, none, ⟨none⟩, fun _ => true⟩
        [⟨some 300, some 250, none, none, none, none, none, none, "a"⟩,
         ⟨some 300, some 250, none, none, none, none, none, none, "b"⟩]
        (fun _ => ⟨false, .missing, []⟩)).err = none ∧
    (generate ⟨.incremental, noFilters, none, ⟨none⟩, fun _ => true⟩
        [⟨some 300, some 250, none, none, none, none, none, none, "a"⟩,
         ⟨some 300, some 250, none, none, none, none, none, none, "b"⟩]
        ((generate ⟨.incremental, noFilters, none, ⟨none⟩, fun _ => true⟩
            [⟨some 300, some 250, none, none, none, none, none, none, "a"⟩,
             ⟨some 300, some 250, none, none, none, none, none, none, "b"⟩]
            (fun _ => ⟨false, .missing, []⟩)).store)).counts.updated = 2 ∧
    (generate ⟨.incremental, noFilters, none, ⟨none⟩, fun _ => true⟩
        [⟨some 300, some 250, none, none, none, none, none, none, "a"⟩,
         ⟨some 300, some 250, none, none, none, none, none, none, "b"⟩]
        ((generate ⟨.incremental, noFilters, none, ⟨none⟩, fun _ => true⟩
            [⟨some 300, some 250, none, none, none, none, none, none, "a"⟩,
             ⟨some 300, some 250, none, none, none, none, none, none, "b"⟩]
            (fun _ => ⟨false, .missing, []⟩)).store)).counts.skipped = 0 := by
  refine ⟨rfl, ?_, ?_⟩ <;> decide

/-- C2 amended: an immediate second incremental run over the same
configuration, with no changes to the assets directories, performs zero
renders — provided no two formats resolve to the same artifact folder.
Then the second run ends without error, processes nothing
(created = 0, updated = 0), counts every format as skipped or filtered
out, and leaves the output tree exactly as the first run left it.
(Without the distinct-folder proviso the property fails, see the
counterexample.) -/
theorem incremental_idempotent (env : RunEnv) (fmts : List Fmt) (st : Store)
    (hm : env.mode = .incremental) (hd : DistinctFolders fmts.enum)
    (h1 : (generate env fmts st).err = none) :
    (generate env fmts ((generate env fmts st).store)).err = none ∧
    (generate env fmts ((generate env fmts st).store)).counts.processed = 0 ∧
    (generate env fmts ((generate env fmts st).store)).counts.created = 0 ∧
    (generate env fmts ((generate env fmts st).store)).counts.updated = 0 ∧
    (generate env fmts ((generate env fmts st).store)).counts.skipped +
        (generate env fmts ((generate env fmts st).store)).counts.filteredOut =
      fmts.length ∧
    (generate env fmts ((generate env fmts st).store)).store =
      (generate env fmts st).store := by
  cases fmts with
  | nil => simp [generate] at h1
  | cons f0 rest0 =>
    have hg : ∀ s : Store, generate env (f0 :: rest0) s =
        runFormatsAux env (f0 :: rest0).enum ⟨s, initCounts, none⟩ := fun s => by
      simp [generate]
    rw [hg] at h1
    rw [hg, hg]
    have hdi := runFormatsAux_dichotomy env hm (f0 :: rest0).enum st initCounts hd h1
    have hsk := runFormatsAux_skips env hm (f0 :: rest0).enum
      ((runFormatsAux env (f0 :: rest0).enum ⟨st, initCounts, none⟩).store) initCounts hdi
    refine ⟨hsk.2.1, ?_, ?_, ?_, ?_, hsk.1⟩
    · rw [hsk.2.2.1]; rfl
    · rw [hsk.2.2.2.1]; rfl
    · rw [hsk.2.2.2.2.1]; rfl
    · rw [hsk.2.2.2.2.2, List.enum_length]; simp [initCounts]

/-- Witness for C2 (amended): a second incremental run over a concrete
one-format configuration performs zero renders. -/
theorem incremental_idempotent_witness :
    (generate ⟨.incremental, noFilters, none, ⟨none⟩, fun _ => true⟩
        [⟨some 300, some 250, none, none, none, none, none, none, "s"⟩]
        ((generate ⟨.incremental, noFilters, none, ⟨none⟩, fun _ => true⟩
            [⟨some 300, some 250, none, none, none, none, none, none, "s"⟩]
            (fun _ => ⟨false, .missing, []⟩)).store)).counts.updated = 0 :=
  (incremental_idempotent ⟨.incremental, noFilters, none, ⟨none⟩, fun _ => true⟩
    [⟨some 300, some 250, none, none, none, none, none, none, "s"⟩]
    (fun _ => ⟨false, .missing, []⟩) rfl
    (by simp [DistinctFolders]) (by decide)).2.2.2.1

/-- C5 counterexample: a run over `[valid 300x250, invalid width]` in
default mode aborts with the invalid-size error — but only when the
loop reaches the invalid entry, by which time the first format has
already been generated: its folder has the entry marker and the run
counted one creation.  So "no format of the run is generated" fails for
a malformed configuration. -/
theorem invalid_size_claim_counterexample :
    (generate ⟨.incremental, noFilters, none, ⟨none⟩, fun _ => true⟩
        [⟨some 300, some 250, none, none, none, none, none, none, "s"⟩,
         ⟨none, some 100, none, none, none, none, none, none, "t"⟩]
        (fun _ => ⟨false, .missing, []⟩)).err = some .invalidSize ∧
    ((generate ⟨.incremental, noFilters, none, ⟨none⟩, fun _ => true⟩
        [⟨some 300, some 250, none, none, none, none, none, none, "s"⟩,
         ⟨none, some 100, none, none, none, none, none, none, "t"⟩]
        (fun _ => ⟨false, .missing, []⟩)).store ["300x250"]).hasIndex = true ∧
    (generate ⟨.incremental, noFilters, none, ⟨none⟩, fun _ => true⟩
        [⟨some 300, some 250, none, none, none, none, none, none, "s"⟩,
         ⟨none, some 100, none, none, none, none, none, none, "t"⟩]
        (fun _ => ⟨false, .missing, []⟩)).counts.created = 1 := by
  refine ⟨rfl, ?_, rfl⟩
  decide

/-- C5 amended: when a surviving (unfiltered) FormatSpec has a
non-numeric width or height, the run throws the invalid-size error the
moment the loop reaches that entry: the invalid entry and every later
entry are not processed, but the formats before it in the list have
already been fully processed, and their on-disk effects and counts
persist — the abort does not roll anything back, so a malformed
configuration can leave the earlier formats generated. -/
theorem invalid_size_aborts (env : RunEnv) (l₁ l₂ : List (Nat × Fmt)) (idx : Nat)
    (bad : Fmt) (st : Store) (c : Counts)
    (hmf : matchesFilters bad idx env.cfg env.templateOverride env.filters = true)
    (hbad : bad.width = none ∨ bad.height = none)
    (h1 : (runFormatsAux env l₁ ⟨st, c, none⟩).err = none) :
    runFormatsAux env (l₁ ++ (idx, bad) :: l₂) ⟨st, c, none⟩ =
      ⟨(runFormatsAux env l₁ ⟨st, c, none⟩).store,
       (runFormatsAux env l₁ ⟨st, c, none⟩).counts, some .invalidSize⟩ := by
  rw [runFormatsAux_append]
  set r1 := runFormatsAux env l₁ ⟨st, c, none⟩ with hr1
  have hstep : stepFormat env idx bad r1.store = .error .invalidSize := by
    rcases hbad with hb | hb
    · simp [stepFormat, hmf, hb]
    · cases hw : bad.width <;> simp [stepFormat, hmf, hb, hw]
  have hrun : runFormatsAux env ((idx, bad) :: l₂) r1 =
      runFormatsAux env l₂ ⟨r1.store, r1.counts, some .invalidSize⟩ := by
    simp [runFormatsAux, h1, hstep]
  rw [hrun, runFormatsAux_err_some]

/-- Witness for C5 (amended): the concrete two-format run of the
counterexample aborts at index 1 with the store and counts of the
completed prefix. -/
theorem invalid_size_aborts_witness :
    runFormatsAux ⟨.incremental, noFilters, none, ⟨none⟩, fun _ => true⟩
        [(0, ⟨some 300, some 250, none, none, none, none, none, none, "s"⟩),
         (1, ⟨none, some 100, none, none, none, none, none, none, "t"⟩)]
        ⟨fun _ => ⟨false, .missing, []⟩, initCounts, none⟩ =
      ⟨(runFormatsAux ⟨.incremental, noFilters, none, ⟨none⟩, fun _ => true⟩
          [(0, ⟨some 300, some 250, none, none, none, none, none, none, "s"⟩)]
          ⟨fun _ => ⟨false, .missing, []⟩, initCounts, none⟩).store,
       (runFormatsAux ⟨.incremental, noFilters, none, ⟨none⟩, fun _ => true⟩
          [(0, ⟨some 300, some 250, none, none, none, none, none, none, "s"⟩)]
          ⟨fun _ => ⟨false, .missing, []⟩, initCounts, none⟩).counts,
       some .invalidSize⟩ :=
  invalid_size_aborts ⟨.incremental, noFilters, none, ⟨none⟩, fun _ => true⟩
    [(0, ⟨some 300, some 250, none, none, none, none, none, none, "s"⟩)] [] 1
    ⟨none, some 100, none, none, none, none, none, none, "t"⟩
    (fun _ => ⟨false, .missing, []⟩) initCounts rfl (Or.inl rfl) (by decide)

/-- C6: template-copy protection.  The template is copied only when the
entry-marker test was false — an existing artifact is returned
untouched; every copy excludes anything inside an `assets`
subdirectory, so files in the artifact's `assets/` are never deleted or
overwritten; no pre-existing file anywhere in the artifact is
overwritten or deleted; and a fresh artifact receives exactly the
non-assets template files. -/
theorem template_copy_protection :
    (∀ tmpl (dst : Dir), ensureTemplateOnCreate tmpl true dst = dst) ∧
    (∀ tmpl ex (dst : Dir) p, underAssets p = true →
      ensureTemplateOnCreate tmpl ex dst p = dst p) ∧
    (∀ tmpl ex (dst : Dir) p c, dst p = some c →
      ensureTemplateOnCreate tmpl ex dst p = some c) ∧
    (∀ tmpl (dst : Dir) p, underAssets p = false → dst p = none →
      ensureTemplateOnCreate tmpl false dst p = List.lookup p tmpl) := by
  refine ⟨fun _ _ => rfl, ?_, ?_, ?_⟩
  · intro tmpl ex dst p hp
    cases ex
    · cases hdst : dst p <;>
        simp [ensureTemplateOnCreate, copyTemplate, hdst, hp]
    · rfl
  · intro tmpl ex dst p c hdst
    cases ex
    · simp [ensureTemplateOnCreate, copyTemplate, hdst]
    · exact hdst
  · intro tmpl dst p hp hdst
    simp [ensureTemplateOnCreate, copyTemplate, hdst, hp]

/-- Witness for C6: instantiation into an artifact holding
`assets/a.png` keeps that file and materializes the template's
`index.html`. -/
theorem template_copy_protection_witness :
    ensureTemplateOnCreate [(["index.html"], "tpl")] false
        (fun p => if p = ["assets", "a.png"] then some "keep" else none)
        ["assets", "a.png"] = some "keep" ∧
    ensureTemplateOnCreate [(["index.html"], "tpl")] false
        (fun p => if p = ["assets", "a.png"] then some "keep" else none)
        ["index.html"] = some "tpl" := by
  constructor
  · exact template_copy_protection.2.2.1 [(["index.html"], "tpl")] false _
      ["assets", "a.png"] "keep" (by decide)
  · have h := template_copy_protection.2.2.2 [(["index.html"], "tpl")]
      (fun p => if p = ["assets", "a.png"] then some "keep" else none)
      ["index.html"] (by decide) (by decide)
    rw [h]
    decide

/-- C8 counterexample: the legacy CLI's packager performs no
exclusions, so an OS metadata file `.DS_Store` lands in its archive —
contrary to the claim, which covers both packagers.  (The main CLI's
packager does exclude it.) -/
theorem packager_claim_counterexample :
    [".DS_Store"] ∈ zipFolderLegacy [[".DS_Store"]] ∧
    [".DS_Store"] ∉ zipFolder [[".DS_Store"]] := by
  constructor <;> decide

/-- C8 amended: the packager of the main CLI archives exactly the
artifact directory's current files minus dynamic sources (base name
ending in `.mustache`), OS metadata files (`.DS_Store`, `Thumbs.db`)
and the persisted GenerationState record (`.gen-state.json`).  The
legacy CLI's packager archives everything, with no exclusions. -/
theorem packager_exclusions :
    (∀ (files : List (List String)) p, p ∈ zipFolder files ↔
      (p ∈ files ∧ ¬endsWithStr (p.getLastD "") ".mustache" = true ∧
       ¬p.getLastD "" = ".DS_Store" ∧ ¬p.getLastD "" = "Thumbs.db" ∧
       ¬p.getLastD "" = ".gen-state.json")) ∧
    (∀ files, zipFolderLegacy files = files) := by
  refine ⟨?_, fun _ => rfl⟩
  intro files p
  simp [zipFolder, zipIgnored, List.mem_filter, not_or]
  tauto

/-- Witness for C8 (amended): a rendered `index.html` is archived while
the state record is not. -/
theorem packager_exclusions_witness :
    ["index.html"] ∈ zipFolder [["index.html"], [".gen-state.json"]] :=
  (packager_exclusions.1 [["index.html"], [".gen-state.json"]] ["index.html"]).mpr
    ⟨by decide, by decide, by decide, by decide, by decide⟩

theorem sortJsonFields_eq_map (fs : List (String × JsonVal)) :
    sortJsonFields fs = fs.map fun p => (p.1, sortJson p.2) := by
  induction fs with
  | nil => rfl
  | cons p fs ih =>
    obtain ⟨k, v⟩ := p
    simp [sortJsonFields, ih]

theorem sortJsonFields_keys (fs : List (String × JsonVal)) :
    (sortJsonFields fs).map Prod.fst = fs.map Prod.fst := by
  induction fs with
  | nil => rfl
  | cons p fs ih =>
    obtain ⟨k, v⟩ := p
    simp [sortJsonFields, ih]

theorem sortJsonList_eq_map (xs : List JsonVal) :
    sortJsonList xs = xs.map sortJson := by
  induction xs with
  | nil => rfl
  | cons x xs ih => simp [sortJsonList, ih]

theorem sortJsonFields_perm {fs gs : List (String × JsonVal)} (h : fs.Perm gs) :
    (sortJsonFields fs).Perm (sortJsonFields gs) := by
  rw [sortJsonFields_eq_map, sortJsonFields_eq_map]
  exact h.map _

theorem sorted_keyLT_of_sorted_keyLE {l : List (String × JsonVal)}
    (hs : List.Sorted keyLE l) (hn : (l.map Prod.fst).Nodup) :
    List.Sorted keyLT l := by
  have hne : l.Pairwise fun a b => a.1 ≠ b.1 := List.pairwise_map.mp hn
  exact (hs.and hne).imp fun h => lt_of_le_of_ne h.1 h.2

/-- On duplicate-free field lists, sorting is permutation invariant:
the sorted form is unique. -/
theorem insertionSort_eq_of_perm {A B : List (String × JsonVal)}
    (hab : A.Perm B) (hn : (A.map Prod.fst).Nodup) :
    List.insertionSort keyLE A = List.insertionSort keyLE B := by
  have hnB : (B.map Prod.fst).Nodup := ((hab.map Prod.fst).nodup_iff).mp hn
  apply List.eq_of_perm_of_sorted (r := keyLT)
  · exact (List.perm_insertionSort keyLE A).trans
      (hab.trans (List.perm_insertionSort keyLE B).symm)
  · exact sorted_keyLT_of_sorted_keyLE (List.sorted_insertionSort keyLE A)
      (((List.perm_insertionSort keyLE A).map Prod.fst).nodup_iff.mpr hn)
  · exact sorted_keyLT_of_sorted_keyLE (List.sorted_insertionSort keyLE B)
      (((List.perm_insertionSort keyLE B).map Prod.fst).nodup_iff.mpr hnB)

mutual
/-- The sorter normalizes away recursive key-order permutations (on
well-formed values). -/
theorem keyPerm_sortJson : ∀ {v w : JsonVal}, KeyPerm v w → jsonWF v = true →
    sortJson v = sortJson w
  | _, _, .null, _ => rfl
  | _, _, .bool _, _ => rfl
  | _, _, .num _, _ => rfl
  | _, _, .str _, _ => rfl
  | _, _, @KeyPerm.arr xs ys hl, hwf => by
    have hwf2 : jsonWFList xs = true := by simpa [jsonWF] using hwf
    simp only [sortJson]
    exact congrArg JsonVal.arr (keyPermList_sortJsonList hl hwf2)
  | _, _, @KeyPerm.obj fs gs hs hf hp, hwf => by
    have hwf2 : (fs.map Prod.fst).Nodup ∧ jsonWFFields fs = true := by
      simpa [jsonWF] using hwf
    obtain ⟨hnd, hwff⟩ := hwf2
    have heq : sortJsonFields fs = sortJsonFields gs :=
      keyPermFields_sortJsonFields hf hwff
    have hperm : (sortJsonFields fs).Perm (sortJsonFields hs) := by
      rw [heq]
      exact sortJsonFields_perm hp
    have hnodup : ((sortJsonFields fs).map Prod.fst).Nodup := by
      rw [sortJsonFields_keys]
      exact hnd
    simp only [sortJson]
    exact congrArg JsonVal.obj (insertionSort_eq_of_perm hperm hnodup)

/-- Pointwise version of `keyPerm_sortJson` for sequences. -/
theorem keyPermList_sortJsonList : ∀ {xs ys : List JsonVal}, KeyPermList xs ys →
    jsonWFList xs = true → sortJsonList xs = sortJsonList ys
  | _, _, .nil, _ => rfl
  | _, _, @KeyPermList.cons x y xs ys hxy hrest, hwf => by
    have h2 : jsonWF x = true ∧ jsonWFList xs = true := by
      simpa [jsonWFList] using hwf
    simp only [sortJsonList]
    exact congrArg₂ List.cons (keyPerm_sortJson hxy h2.1)
      (keyPermList_sortJsonList hrest h2.2)

/-- Pointwise version of `keyPerm_sortJson` for mapping fields. -/
theorem keyPermFields_sortJsonFields : ∀ {fs gs : List (String × JsonVal)},
    KeyPermFields fs gs → jsonWFFields fs = true → sortJsonFields fs = sortJsonFields gs
  | _, _, .nil, _ => rfl
  | _, _, @KeyPermFields.cons k v w fs2 gs2 hvw hrest, hwf => by
    have h2 : jsonWF v = true ∧ jsonWFFields fs2 = true := by
      simpa [jsonWFFields] using hwf
    simp only [sortJsonFields]
    exact congrArg₂ List.cons (congrArg (Prod.mk k) (keyPerm_sortJson hvw h2.1))
      (keyPermFields_sortJsonFields hrest h2.2)
end

/-- C3: fingerprint key-order independence.  For every well-formed
FormatSpec value v (duplicate-free mapping keys, as `JSON.parse`
guarantees), fingerprinting v yields the same string as fingerprinting
any value obtained from v by recursively permuting the key-insertion
order of its mappings; the sorter preserves sequence order (it maps
sequences pointwise) and leaves scalars unchanged. -/
theorem fingerprint_key_order_independent :
    (∀ v w, jsonWF v = true → KeyPerm v w → stableStringify v = stableStringify w) ∧
    (∀ xs, sortJson (.arr xs) = .arr (xs.map sortJson)) ∧
    sortJson .null = .null ∧
    (∀ b, sortJson (.bool b) = .bool b) ∧
    (∀ n, sortJson (.num n) = .num n) ∧
    (∀ s, sortJson (.str s) = .str s) := by
  refine ⟨?_, ?_, rfl, fun _ => rfl, fun _ => rfl, fun _ => rfl⟩
  · intro v w hwf h
    exact congrArg serialize (keyPerm_sortJson h hwf)
  · intro xs
    simp only [sortJson]
    rw [sortJsonList_eq_map]

theorem not_digit_of_space {c : Char} (h : isJsSpace c = true) : isJsDigit c = false := by
  have h2 : c = ' ' ∨ c = '\t' ∨ c = '\n' ∨ c = '\r' ∨ c = '\x0b' ∨ c = '\x0c' := by
    simpa [isJsSpace, or_assoc] using h
  rcases h2 with rfl | rfl | rfl | rfl | rfl | rfl <;> decide

theorem space_ne_dot {c : Char} (h : isJsSpace c = true) : c ≠ '.' := by
  have h2 : c = ' ' ∨ c = '\t' ∨ c = '\n' ∨ c = '\r' ∨ c = '\x0b' ∨ c = '\x0c' := by
    simpa [isJsSpace, or_assoc] using h
  rcases h2 with rfl | rfl | rfl | rfl | rfl | rfl <;> decide

/-- Splitting a list at the first character failing `p` identifies the
`takeWhile`/`dropWhile` decomposition. -/
theorem takeWhile_dropWhile_of_append {p : Char → Bool} :
    ∀ (l r : List Char), (∀ c ∈ l, p c = true) →
      (∀ c, r.head? = some c → p c = false) →
      (l ++ r).takeWhile p = l ∧ (l ++ r).dropWhile p = r
  | [], r, _, hr => by
    cases r with
    | nil => exact ⟨rfl, rfl⟩
    | cons c r2 =>
      have hc : p c = false := hr c rfl
      simp [List.takeWhile_cons, List.dropWhile_cons, hc]
  | c :: l, r, hl, hr => by
    have hc : p c = true := hl c (List.mem_cons_self _ _)
    have ih := takeWhile_dropWhile_of_append l r
      (fun d hd => hl d (List.mem_cons_of_mem _ hd)) hr
    simp [List.takeWhile_cons, List.dropWhile_cons, hc, ih.1, ih.2]

/-- The tail test `\s*kb$` accepts exactly whitespace followed by a
case-insensitive `kb` at the very end. -/
theorem isKbTail_eq_true_iff (cs : List Char) :
    isKbTail cs = true ↔ ∃ ws k b, (∀ c ∈ ws, isJsSpace c = true) ∧
      (k = 'k' ∨ k = 'K') ∧ (b = 'b' ∨ b = 'B') ∧ cs = ws ++ [k, b] := by
  constructor
  · intro h
    cases hdw : cs.dropWhile isJsSpace with
    | nil => simp [isKbTail, hdw] at h
    | cons k rest =>
      cases rest with
      | nil => simp [isKbTail, hdw] at h
      | cons b rest2 =>
        cases rest2 with
        | cons c rest3 => simp [isKbTail, hdw] at h
        | nil =>
          have hkb : (k = 'k' ∨ k = 'K') ∧ (b = 'b' ∨ b = 'B') := by
            simpa [isKbTail, hdw] using h
          refine ⟨cs.takeWhile isJsSpace, k, b, ?_, hkb.1, hkb.2, ?_⟩
          · intro c hc
            exact List.mem_takeWhile_imp hc
          · rw [← hdw]
            exact (List.takeWhile_append_dropWhile isJsSpace cs).symm
  · rintro ⟨ws, k, b, hws, hk, hb, rfl⟩
    have hks : isJsSpace k = false := by rcases hk with rfl | rfl <;> decide
    have hdw : (ws ++ [k, b]).dropWhile isJsSpace = [k, b] :=
      (takeWhile_dropWhile_of_append ws [k, b] hws (fun c hc => by
        simp only [List.head?] at hc
        cases hc
        exact hks)).2
    rcases hk with rfl | rfl <;> rcases hb with rfl | rfl <;> simp [isKbTail, hdw]

/-- The executable budget parser accepts exactly the spec's
`<number>kb` pattern, with the value of the matched number. -/
theorem parseKbCore_eq_some_iff (cs : List Char) (q : ℚ) :
    parseKbCore cs = some q ↔ KbMatch cs q := by
  constructor
  · intro h
    by_cases hde : (cs.takeWhile isJsDigit).isEmpty
    · simp [parseKbCore, hde] at h
    · have hds : cs.takeWhile isJsDigit ≠ [] := by
        cases hcs : cs.takeWhile isJsDigit
        · rw [hcs] at hde; exact absurd rfl hde
        · simp
      have hdigs : ∀ c ∈ cs.takeWhile isJsDigit, isJsDigit c = true :=
        fun c hc => List.mem_takeWhile_imp hc
      have hcs0 := List.takeWhile_append_dropWhile isJsDigit cs
      cases hdw : cs.dropWhile isJsDigit with
      | nil => simp [parseKbCore, hde, hdw] at h
      | cons c rest =>
        rw [hdw] at hcs0
        by_cases hdot : c = '.'
        · subst hdot
          by_cases hfe : (rest.takeWhile isJsDigit).isEmpty
          · simp [parseKbCore, hde, hdw, hfe] at h
          · by_cases hkb : isKbTail (rest.dropWhile isJsDigit) = true
            · have hq : numVal (cs.takeWhile isJsDigit) (rest.takeWhile isJsDigit) = q := by
                simpa [parseKbCore, hde, hdw, hfe, hkb] using h
              obtain ⟨ws, k, b, hws, hk, hb, hrest3⟩ := (isKbTail_eq_true_iff _).mp hkb
              have hfs : rest.takeWhile isJsDigit ≠ [] := by
                cases hrw : rest.takeWhile isJsDigit
                · rw [hrw] at hfe; exact absurd rfl hfe
                · simp
              have hrest0 := List.takeWhile_append_dropWhile isJsDigit rest
              rw [hrest3] at hrest0
              refine ⟨cs.takeWhile isJsDigit, some (rest.takeWhile isJsDigit), ws, k, b,
                hds, hdigs, hws, hk, hb, hfs,
                fun c hc => List.mem_takeWhile_imp hc, ?_, hq.symm⟩
              calc cs = List.takeWhile isJsDigit cs ++ '.' :: rest := hcs0.symm
                _ = List.takeWhile isJsDigit cs ++
                    '.' :: (List.takeWhile isJsDigit rest ++ (ws ++ [k, b])) := by
                  rw [hrest0]
                _ = List.takeWhile isJsDigit cs ++
                    '.' :: List.takeWhile isJsDigit rest ++ ws ++ [k, b] := by
                  simp [List.append_assoc]
            · simp [parseKbCore, hde, hdw, hfe, hkb] at h
        · by_cases hkb : isKbTail (c :: rest) = true
          · have hq : numVal (cs.takeWhile isJsDigit) [] = q := by
              simpa [parseKbCore, hde, hdw, hdot, hkb] using h
            obtain ⟨ws, k, b, hws, hk, hb, heq⟩ := (isKbTail_eq_true_iff _).mp hkb
            refine ⟨cs.takeWhile isJsDigit, none, ws, k, b,
              hds, hdigs, hws, hk, hb, ?_, hq.symm⟩
            calc cs = List.takeWhile isJsDigit cs ++ (c :: rest) := hcs0.symm
              _ = List.takeWhile isJsDigit cs ++ (ws ++ [k, b]) := by rw [heq]
              _ = List.takeWhile isJsDigit cs ++ ws ++ [k, b] := by
                rw [List.append_assoc]
          · simp [parseKbCore, hde, hdw, hdot, hkb] at h
  · rintro ⟨ds, ofs, ws, k, b, hds, hdigs, hws, hk, hb, hrest⟩
    have hknd : isJsDigit k = false := by rcases hk with rfl | rfl <;> decide
    have hkdot : k ≠ '.' := by rcases hk with rfl | rfl <;> decide
    have hde : ds.isEmpty = false := by
      cases ds
      · exact absurd rfl hds
      · rfl
    have hkb : isKbTail (ws ++ [k, b]) = true :=
      (isKbTail_eq_true_iff _).mpr ⟨ws, k, b, hws, hk, hb, rfl⟩
    have hhead : ∀ c, (ws ++ [k, b]).head? = some c → isJsDigit c = false := by
      cases ws with
      | nil =>
        intro c hc
        simp only [List.nil_append, List.head?] at hc
        cases hc
        exact hknd
      | cons w ws2 =>
        intro c hc
        simp only [List.cons_append, List.head?] at hc
        cases hc
        exact not_digit_of_space (hws w (List.mem_cons_self _ _))
    cases ofs with
    | none =>
      obtain ⟨hcs, hq⟩ := hrest
      have hcs2 : cs = ds ++ (ws ++ [k, b]) := by
        rw [hcs, List.append_assoc]
      obtain ⟨htw, hdw⟩ := takeWhile_dropWhile_of_append ds (ws ++ [k, b]) hdigs hhead
      rw [← hcs2] at htw hdw
      cases hws2 : ws with
      | nil =>
        subst hws2
        simp only [List.nil_append] at hdw hkb
        simp [parseKbCore, htw, hdw, hde, hkdot, hkb, hq]
      | cons w ws3 =>
        have hwdot : w ≠ '.' :=
          space_ne_dot (hws w (by rw [hws2]; exact List.mem_cons_self _ _))
        rw [hws2] at hdw hkb
        simp only [List.cons_append] at hdw hkb
        simp [parseKbCore, htw, hdw, hde, hwdot, hkb, hq]
    | some fs =>
      obtain ⟨hfs, hfdigs, hcs, hq⟩ := hrest
      have hcs2 : cs = ds ++ ('.' :: (fs ++ (ws ++ [k, b]))) := by
        rw [hcs]
        simp [List.append_assoc]
      have hdotnd : ∀ c, ('.' :: (fs ++ (ws ++ [k, b]))).head? = some c →
          isJsDigit c = false := by
        intro c hc
        simp only [List.head?] at hc
        cases hc
        decide
      obtain ⟨htw, hdw⟩ :=
        takeWhile_dropWhile_of_append ds ('.' :: (fs ++ (ws ++ [k, b]))) hdigs hdotnd
      rw [← hcs2] at htw hdw
      obtain ⟨htw2, hdw2⟩ := takeWhile_dropWhile_of_append fs (ws ++ [k, b]) hfdigs hhead
      have hfe : fs.isEmpty = false := by
        cases fs
        · exact absurd rfl hfs
        · rfl
      simp [parseKbCore, htw, hdw, hde, htw2, hdw2, hfe, hkb, hq]

/-- C10: budget parsing.  An absent `size` field yields a null byte
budget; a string matching the pattern `<number>kb` (case-insensitive,
optional decimal part, optional whitespace before "kb") on its trimmed
text yields `Math.round(number × 1024)` bytes; a string that does not
match the pattern yields a null budget; and a null budget makes the
size check a silent skip (no comparison, no output, never an error or a
failed check). -/
theorem budget_parsing :
    parseKb none = none ∧
    (∀ s q, KbMatch (jsTrim s.toList) q →
      parseKb (some s) = some (jsRound (q * 1024)).toNat) ∧
    (∀ s, (∀ q, ¬KbMatch (jsTrim s.toList) q) → parseKb (some s) = none) ∧
    (∀ S, checkZipSize S none = ⟨true, true, none, none, none⟩) := by
  refine ⟨rfl, ?_, ?_, fun _ => rfl⟩
  · intro s q hm
    have hne : ¬s = "" := by
      rintro rfl
      obtain ⟨ds, ofs, ws, k, b, hds, _, _, _, _, hrest⟩ := hm
      rcases ofs with _ | fs
      · obtain ⟨hcs, _⟩ := hrest
        have hlen := congrArg List.length hcs
        simp [jsTrim] at hlen
        omega
      · obtain ⟨_, _, hcs, _⟩ := hrest
        have hlen := congrArg List.length hcs
        simp [jsTrim] at hlen
        omega
    have hcore : parseKbCore (jsTrim s.toList) = some q :=
      (parseKbCore_eq_some_iff _ _).mpr hm
    simp only [parseKb, hne, if_false]
    rw [hcore]
    rfl
  · intro s hnot
    by_cases hse : s = ""
    · simp [parseKb, hse]
    · cases hc : parseKbCore (jsTrim s.toList) with
      | none =>
        simp only [parseKb, hse, if_false]
        rw [hc]
        rfl
      | some q => exact absurd ((parseKbCore_eq_some_iff _ _).mp hc) (hnot q)

/-- Witness for C10: the budget string "1.5kb" parses to 1536 bytes. -/
theorem budget_parsing_witness : parseKb (some "1.5kb") = some 1536 := by
  have hjt : jsTrim "1.5kb".toList = ['1', '.', '5', 'k', 'b'] := by decide
  have hm : KbMatch (jsTrim "1.5kb".toList) (3 / 2 : ℚ) := by
    rw [hjt]
    refine ⟨['1'], some ['5'], [], 'k', 'b', by decide, by decide, by decide,
      Or.inl rfl, Or.inl rfl, by decide, by decide, by decide, ?_⟩
    simp [numVal, digitsToNat]
    norm_num
  have h := budget_parsing.2.1 "1.5kb" (3 / 2) hm
  rw [h]
  norm_num [jsRound]
  decide

/-- Witness for C3: the two-field object with its keys permuted
fingerprints identically. -/
theorem fingerprint_key_order_independent_witness :
    stableStringify (.obj [("b", .num 1), ("a", .null)]) =
      stableStringify (.obj [("a", .null), ("b", .num 1)]) :=
  fingerprint_key_order_independent.1 _ _
    (by simp [jsonWF, jsonWFFields])
    (KeyPerm.obj
      (KeyPermFields.cons (KeyPerm.num 1)
        (KeyPermFields.cons KeyPerm.null KeyPermFields.nil))
      (List.Perm.swap ("a", JsonVal.null) ("b", JsonVal.num 1) []))

end BannerGen
